import Mathlib

/-!
# Bell controller (`src/main.cpp`): schedule registry, trigger evaluator, actuator

A shallow embedding of the firmware's global state and of the functions that
mutate it, followed by theorems about them.

Conventions of the embedding.
* The globals of `main.cpp` become the fields of `State`; every function takes
  the state and returns the new one.
* `int` values are `Int`.  `unsigned long` values (`millis()`, `bellStartTime`,
  `lastButtonPress`) are `Nat`, and their subtraction is taken modulo `2^32`
  (`unsigned long` is 32 bits wide on the ESP32).
* `Schedule schedules[MAX_SCHEDULES]` is a list of exactly `MAX_SCHEDULES`
  entries.  An access `schedules[i]` with `i` outside `0..MAX_SCHEDULES-1` is
  undefined behaviour in C++; here it makes the enclosing function return
  `none`.
* A loop `for (int i = lo; i < hi; i++) body` whose body changes neither `i`
  nor `hi` runs `body` exactly `(hi - lo).toNat` times: `forLoop`.
* What comes from outside the program is a parameter: the value `millis()`
  returns, the result of `getLocalTime`, the level read on the button pin, the
  integers the JSON document yields.
* `Serial.println` / `Serial.printf` append a line to `State.serial`.
-/

namespace Bell

/-! ## Constants -/

/-- Source constant `const int BELL_DURATION = 1000;` (ms). -/
def BELL_DURATION : Nat := 1000

/-- Source constant `const int BUTTON_DEBOUNCE = 500;` (ms). -/
def BUTTON_DEBOUNCE : Nat := 500

/-- Source constant `const int MAX_SCHEDULES = 20;`. -/
def MAX_SCHEDULES : Nat := 20

/-- Number of values of an `unsigned long` on the target (32 bits). -/
def ULONG_MOD : Nat := 2 ^ 32

/-- Subtraction of two `unsigned long` values, `a - b` in C++. -/
def ulSub (a b : Nat) : Nat := (a % ULONG_MOD + (ULONG_MOD - b % ULONG_MOD)) % ULONG_MOD

/-! ## Data -/

/-- The `struct Schedule` of the source. -/
structure Schedule where
  enabled : Bool
  dayOfWeek : Int
  hour : Int
  minute : Int
  triggered : Bool
deriving DecidableEq, Repr

/-- The fields of `struct tm` that `checkSchedules` reads. -/
structure Tm where
  tm_wday : Int
  tm_hour : Int
  tm_min : Int
deriving DecidableEq, Repr

/-- A value held by the `Preferences` key-value store, tagged with the type it
was written with (`putInt`, `putBool`, `putString`). -/
inductive PrefVal where
  | int (v : Int)
  | bool (b : Bool)
  | str (s : String)
deriving DecidableEq, Repr

/-- The `Preferences` store (an external library): the most recent write of a
key comes first. -/
abbrev Prefs := List (String × PrefVal)

/-- A line written to `Serial`. -/
inductive SerialLine where
  /-- Line of `Serial.println("Bell ringing!")`. -/
  | bellRinging
  /-- Line of `Serial.println("Bell stopped")`. -/
  | bellStopped
  /-- Line of `Serial.printf("Schedule %d triggered\n", i)`. -/
  | scheduleTriggered (i : Int)
  /-- Line of `Serial.printf("Loaded %d schedules\n", scheduleCount)`. -/
  | loaded (n : Int)
  /-- Line of `Serial.printf("Saved %d schedules\n", scheduleCount)`. -/
  | saved (n : Int)
deriving DecidableEq, Repr

/-- The array `Schedule schedules[MAX_SCHEDULES]`. -/
abbrev ScheduleArray := { l : List Schedule // l.length = MAX_SCHEDULES }

/-- The global variables of the program, the two output pins, the store and
the serial output. -/
structure State where
  schedules : ScheduleArray
  scheduleCount : Int
  bellActive : Bool
  bellStartTime : Nat
  lastButtonPress : Nat
  bellPin : Bool
  ledPin : Bool
  preferences : Prefs
  serial : List SerialLine
deriving DecidableEq

/-- A zero-initialised `Schedule`. -/
def Schedule.zero : Schedule := ⟨false, 0, 0, 0, false⟩

/-- The state after static initialisation and the pin set-up of `setup()`,
with the given content of the store. -/
def State.init (p : Prefs) : State :=
  { schedules := ⟨List.replicate MAX_SCHEDULES Schedule.zero, by simp⟩
    scheduleCount := 0
    bellActive := false
    bellStartTime := 0
    lastButtonPress := 0
    bellPin := false
    ledPin := false
    preferences := p
    serial := [] }

/-! ## Array access -/

/-- Read of `schedules[i]`. -/
def rd (a : ScheduleArray) (i : Int) : Option Schedule :=
  if 0 ≤ i ∧ i < MAX_SCHEDULES then a.val[i.toNat]? else none

/-- Write `schedules[i] = x`. -/
def wr (a : ScheduleArray) (i : Int) (x : Schedule) : Option ScheduleArray :=
  if 0 ≤ i ∧ i < MAX_SCHEDULES then
    some ⟨a.val.set i.toNat x, by rw [List.length_set]; exact a.property⟩
  else none

/-- The loop `for (int i = lo; ...; i++) body`, run for `n` iterations
starting at `i`. -/
def forLoop {σ : Type} (body : Int → σ → Option σ) : Nat → Int → σ → Option σ
  | 0, _, s => some s
  | n + 1, i, s => (body i s).bind (forLoop body n (i + 1))

/-! ## The `Preferences` store -/

/-- Lookup of a key. -/
def Prefs.find (p : Prefs) (key : String) : Option PrefVal :=
  (p.find? (fun kv => kv.1 == key)).map (fun kv => kv.2)

/-- Library call `preferences.getInt(key, dflt)`: the stored integer, or `dflt`
when the key is absent or holds a value of another type. -/
def getInt (p : Prefs) (key : String) (dflt : Int) : Int :=
  match p.find key with
  | some (PrefVal.int v) => v
  | _ => dflt

/-- Library call `preferences.getBool(key, dflt)`: the stored boolean, or `dflt`
when the key is absent or holds a value of another type. -/
def getBool (p : Prefs) (key : String) (dflt : Bool) : Bool :=
  match p.find key with
  | some (PrefVal.bool b) => b
  | _ => dflt

/-- Library call `preferences.putInt(key, v)`. -/
def putInt (p : Prefs) (key : String) (v : Int) : Prefs := (key, PrefVal.int v) :: p

/-- Library call `preferences.putBool(key, b)`. -/
def putBool (p : Prefs) (key : String) (b : Bool) : Prefs := (key, PrefVal.bool b) :: p

/-- The key `"s" + String(i) + "_" + field`. -/
def key (i : Int) (field : String) : String := "s" ++ toString i ++ "_" ++ field

/-! ## Actuator -/

/-- Function `void ringBell()`; `millis` is the value `millis()` returns. -/
def ringBell (s : State) (millis : Nat) : State :=
  if !s.bellActive then
    { s with
      bellPin := true
      ledPin := true
      bellActive := true
      bellStartTime := millis
      serial := s.serial ++ [SerialLine.bellRinging] }
  else s

/-- Function `void handleButton()`; `level` is the value of `digitalRead(BUTTON_PIN)`
(`false` = `LOW` = pressed), `tCheck`, `tRing`, `tSet` are the values of the
three successive calls of `millis()`. -/
def handleButton (s : State) (level : Bool) (tCheck tRing tSet : Nat) : State :=
  if level == false then
    if ulSub tCheck s.lastButtonPress > BUTTON_DEBOUNCE then
      { ringBell s tRing with lastButtonPress := tSet }
    else s
  else s

/-- The "Handle bell timing" block of `loop()`. -/
def bellTiming (s : State) (millis : Nat) : State :=
  if s.bellActive && decide (ulSub millis s.bellStartTime ≥ BELL_DURATION) then
    { s with
      bellPin := false
      ledPin := false
      bellActive := false
      serial := s.serial ++ [SerialLine.bellStopped] }
  else s

/-! ## Trigger evaluator -/

/-- The condition of the `if` in the loop of `checkSchedules`. -/
def Schedule.due (e : Schedule) (t : Tm) : Bool :=
  e.enabled && e.dayOfWeek == t.tm_wday && e.hour == t.tm_hour && e.minute == t.tm_min

/-- Body of the loop of `checkSchedules`. -/
def checkBody (t : Tm) (millis : Nat) (i : Int) (s : State) : Option State :=
  (rd s.schedules i).bind fun e =>
    if e.due t then
      if !e.triggered then
        let s1 := ringBell s millis
        (wr s1.schedules i { e with triggered := true }).map fun a =>
          { s1 with
            schedules := a
            serial := s1.serial ++ [SerialLine.scheduleTriggered i] }
      else some s
    else
      (wr s.schedules i { e with triggered := false }).map fun a =>
        { s with schedules := a }

/-- Function `void checkSchedules()`; `time` is what `getLocalTime` yields (`none` when
it returns false), `millis` the value `millis()` returns inside `ringBell`. -/
def checkSchedules (s : State) (time : Option Tm) (millis : Nat) : Option State :=
  match time with
  | none => some s
  | some t => forLoop (checkBody t millis) s.scheduleCount.toNat 0 s

/-- Function `void loop()` without the final `delay(100)`. -/
def loop (s : State) (time : Option Tm) (level : Bool)
    (tSched tCheck tRing tSet tOff : Nat) : Option State :=
  (checkSchedules s time tSched).map fun s1 =>
    bellTiming (handleButton s1 level tCheck tRing tSet) tOff

/-! ## Schedule registry -/

/-- Body of the loop of `loadSchedules`. -/
def loadBody (i : Int) (s : State) : Option State :=
  (wr s.schedules i
    { enabled := getBool s.preferences (key i "en") false
      dayOfWeek := getInt s.preferences (key i "day") 0
      hour := getInt s.preferences (key i "hr") 0
      minute := getInt s.preferences (key i "min") 0
      triggered := false }).map fun a => { s with schedules := a }

/-- Function `void loadSchedules()`. -/
def loadSchedules (s : State) : Option State :=
  let c := getInt s.preferences "count" 0
  let s1 := { s with scheduleCount := if c > MAX_SCHEDULES then 0 else c }
  (forLoop loadBody s1.scheduleCount.toNat 0 s1).map fun s2 =>
    { s2 with serial := s2.serial ++ [SerialLine.loaded s2.scheduleCount] }

/-- Body of the loop of `saveSchedules`. -/
def saveBody (i : Int) (s : State) : Option State :=
  (rd s.schedules i).map fun e =>
    { s with
      preferences :=
        putInt (putInt (putInt (putBool s.preferences (key i "en") e.enabled)
          (key i "day") e.dayOfWeek) (key i "hr") e.hour) (key i "min") e.minute }

/-- Function `void saveSchedules()`. -/
def saveSchedules (s : State) : Option State :=
  let s1 := { s with preferences := putInt s.preferences "count" s.scheduleCount }
  (forLoop saveBody s1.scheduleCount.toNat 0 s1).map fun s2 =>
    { s2 with serial := s2.serial ++ [SerialLine.saved s2.scheduleCount] }

/-- The JSON response of the add and delete handlers. -/
structure Response where
  success : Bool
  message : Option String
deriving DecidableEq, Repr

/-- Handler of `POST /schedule`; `dayOfWeek`, `hour`, `minute` are the
integers read from the request document. -/
def postSchedule (s : State) (dayOfWeek hour minute : Int) : Option (State × Response) :=
  if s.scheduleCount ≥ MAX_SCHEDULES then
    some (s, ⟨false, some "Maximum schedules reached"⟩)
  else
    (wr s.schedules s.scheduleCount
      { enabled := true, dayOfWeek := dayOfWeek, hour := hour, minute := minute,
        triggered := false }).bind fun a =>
      (saveSchedules { s with schedules := a, scheduleCount := s.scheduleCount + 1 }).map
        fun s2 => (s2, ⟨true, none⟩)

/-- Body of the shifting loop of the delete handler. -/
def shiftBody (i : Int) (s : State) : Option State :=
  (rd s.schedules (i + 1)).bind fun e =>
    (wr s.schedules i e).map fun a => { s with schedules := a }

/-- Handler of `DELETE /schedule/<index>`; `index` is `indexStr.toInt()`. -/
def deleteSchedule (s : State) (index : Int) : Option (State × Response) :=
  if index ≥ 0 ∧ index < s.scheduleCount then
    (forLoop shiftBody (s.scheduleCount - 1 - index).toNat index s).bind fun s1 =>
      (saveSchedules { s1 with scheduleCount := s1.scheduleCount - 1 }).map
        fun s2 => (s2, ⟨true, none⟩)
  else some (s, ⟨false, none⟩)

/-- An element of the JSON array that `GET /schedules` returns. -/
structure ScheduleJson where
  dayOfWeek : Int
  hour : Int
  minute : Int
deriving DecidableEq, Repr

/-- Body of the loop of the `GET /schedules` handler. -/
def listBody (s : State) (i : Int) (acc : List ScheduleJson) : Option (List ScheduleJson) :=
  (rd s.schedules i).map fun e =>
    if e.enabled then acc ++ [⟨e.dayOfWeek, e.hour, e.minute⟩] else acc

/-- Handler of `GET /schedules`: the array `schedules` of the response. -/
def getSchedules (s : State) : Option (List ScheduleJson) :=
  forLoop (listBody s) s.scheduleCount.toNat 0 []

/-! ## Definitions used to state the theorems -/

/-- The store after the four writes of one iteration of `saveSchedules`. -/
def putEntry (p : Prefs) (i : Int) (e : Schedule) : Prefs :=
  putInt (putInt (putInt (putBool p (key i "en") e.enabled)
    (key i "day") e.dayOfWeek) (key i "hr") e.hour) (key i "min") e.minute

/-- What the store holds for a schedule: the four persisted fields of entry
`e` under the keys of index `i`. -/
def Holds (p : Prefs) (i : Int) (e : Schedule) : Prop :=
  Prefs.find p (key i "en") = some (PrefVal.bool e.enabled) ∧
  Prefs.find p (key i "day") = some (PrefVal.int e.dayOfWeek) ∧
  Prefs.find p (key i "hr") = some (PrefVal.int e.hour) ∧
  Prefs.find p (key i "min") = some (PrefVal.int e.minute)

/-- The entry `loadSchedules()` builds for index `i` from the store. -/
def loadedEntry (p : Prefs) (i : Int) : Schedule :=
  { enabled := getBool p (key i "en") false
    dayOfWeek := getInt p (key i "day") 0
    hour := getInt p (key i "hr") 0
    minute := getInt p (key i "min") 0
    triggered := false }

/-- Successive `POST /schedule` requests, each given by its three integers;
the result lists the `success` flag of every response. -/
def postMany : State → List (Int × Int × Int) → Option (State × List Bool)
  | s, [] => some (s, [])
  | s, r :: rest =>
    (postSchedule s r.1 r.2.1 r.2.2).bind fun q =>
      (postMany q.1 rest).map fun z => (z.1, q.2.success :: z.2)

/-- Number of "Schedule i triggered" lines on the serial output: how many
times `checkSchedules()` has called `ringBell()` for schedule `i`. -/
def firedCount (i : Int) (s : State) : Nat :=
  s.serial.count (SerialLine.scheduleTriggered i)

/-- The wall clock shows the day, hour and minute of the schedule. -/
def Schedule.sameMinute (e : Schedule) (t : Tm) : Prop :=
  e.dayOfWeek = t.tm_wday ∧ e.hour = t.tm_hour ∧ e.minute = t.tm_min

/-- Successive calls of `checkSchedules()`, one per element of the list: what
`getLocalTime` yields and what `millis()` returns. -/
def runTicks : State → List (Option Tm × Nat) → Option State
  | s, [] => some s
  | s, x :: rest => (checkSchedules s x.1 x.2).bind fun s1 => runTicks s1 rest

/-- The actuator part of the state: `bellActive`, `bellStartTime` and the
levels of the bell pin and of the LED pin. -/
def State.bell (s : State) : Bool × Nat × Bool × Bool :=
  (s.bellActive, s.bellStartTime, s.bellPin, s.ledPin)

/-- Every schedule below the count `c` has its `triggered` flag equal to the
value of the match condition at time `t`. -/
def Settled (a : ScheduleArray) (c : Int) (t : Tm) : Prop :=
  ∀ k : Int, 0 ≤ k → k < c → ∃ x, rd a k = some x ∧ x.triggered = x.due t

/-- A registry holding three schedules: Monday 08:00, Tuesday 09:00 and
Wednesday 10:00, none of them triggered. -/
def State.sample : State :=
  { State.init [] with
    schedules :=
      ⟨[⟨true, 1, 8, 0, false⟩, ⟨true, 2, 9, 0, false⟩, ⟨true, 3, 10, 0, false⟩]
        ++ List.replicate 17 Schedule.zero, by decide⟩
    scheduleCount := 3 }

/-! ## Basic facts: machine subtraction, array access, loops -/

theorem ulSub_of_le (a b : Nat) (hba : b ≤ a) (ha : a < ULONG_MOD) : ulSub a b = a - b := by
  unfold ulSub
  have hb : b < ULONG_MOD := lt_of_le_of_lt hba ha
  rw [Nat.mod_eq_of_lt ha, Nat.mod_eq_of_lt hb]
  have h1 : a + (ULONG_MOD - b) = (a - b) + ULONG_MOD := by omega
  rw [h1, Nat.add_mod_right, Nat.mod_eq_of_lt]
  omega

theorem rd_of_not_inBounds (a : ScheduleArray) (i : Int)
    (h : ¬ (0 ≤ i ∧ i < MAX_SCHEDULES)) : rd a i = none := by
  unfold rd; rw [if_neg h]

theorem wr_of_not_inBounds (a : ScheduleArray) (i : Int) (x : Schedule)
    (h : ¬ (0 ≤ i ∧ i < MAX_SCHEDULES)) : wr a i x = none := by
  unfold wr; rw [if_neg h]

theorem rd_some_of_inBounds (a : ScheduleArray) (i : Int)
    (h0 : 0 ≤ i) (h1 : i < MAX_SCHEDULES) : ∃ e, rd a i = some e := by
  unfold rd
  rw [if_pos ⟨h0, h1⟩]
  have hlt : i.toNat < a.val.length := by rw [a.property]; omega
  exact ⟨a.val[i.toNat], List.getElem?_eq_getElem hlt⟩

theorem wr_some_of_inBounds (a : ScheduleArray) (i : Int) (x : Schedule)
    (h0 : 0 ≤ i) (h1 : i < MAX_SCHEDULES) : ∃ a', wr a i x = some a' := by
  unfold wr
  rw [if_pos ⟨h0, h1⟩]
  exact ⟨_, rfl⟩

theorem rd_wr_same (a a' : ScheduleArray) (i : Int) (x : Schedule)
    (h : wr a i x = some a') : rd a' i = some x := by
  unfold wr at h
  split at h
  · rename_i hb
    cases h
    unfold rd
    rw [if_pos hb]
    have hlt : i.toNat < a.val.length := by rw [a.property]; omega
    exact List.getElem?_set_self hlt
  · cases h

theorem rd_wr_ne (a a' : ScheduleArray) (i j : Int) (x : Schedule)
    (h : wr a i x = some a') (hne : j ≠ i) : rd a' j = rd a j := by
  unfold wr at h
  split at h
  · rename_i hb
    cases h
    unfold rd
    split
    · rename_i hj
      have hn : i.toNat ≠ j.toNat := by omega
      exact List.getElem?_set_ne hn
    · rfl
  · cases h

/-- Two arrays with the same content at every index are the same array. -/
theorem ScheduleArray.ext_rd (a b : ScheduleArray) (h : ∀ i : Int, rd a i = rd b i) : a = b := by
  apply Subtype.ext
  apply List.ext_getElem?
  intro n
  by_cases hn : n < MAX_SCHEDULES
  · have := h (n : Int)
    unfold rd at this
    rw [if_pos ⟨by omega, by omega⟩, if_pos ⟨by omega, by omega⟩] at this
    simpa using this
  · have ha : a.val.length ≤ n := by rw [a.property]; omega
    have hb : b.val.length ≤ n := by rw [b.property]; omega
    rw [List.getElem?_eq_none ha, List.getElem?_eq_none hb]

/-- Hoare rule for `forLoop`: an invariant indexed by the loop counter that
every iteration in range establishes for the next counter value holds at the
end, and the loop does not fail. -/
theorem forLoop_rule {σ : Type} (body : Int → σ → Option σ) (I : Int → σ → Prop) :
    ∀ (n : Nat) (i : Int) (s : σ),
      (∀ (j : Int) (t : σ), i ≤ j → j < i + n → I j t → ∃ t', body j t = some t' ∧ I (j + 1) t') →
      I i s → ∃ s', forLoop body n i s = some s' ∧ I (i + n) s' := by
  intro n
  induction n with
  | zero =>
    intro i s _ h0
    exact ⟨s, rfl, by simpa using h0⟩
  | succ n ih =>
    intro i s hstep h0
    obtain ⟨t, ht, hI⟩ := hstep i s (le_refl i) (by push_cast; omega) h0
    obtain ⟨s', hs', hI'⟩ := ih (i + 1) t
      (fun j u h1 h2 hu => hstep j u (by omega) (by push_cast; omega) hu) hI
    refine ⟨s', ?_, ?_⟩
    · show (body i s).bind (forLoop body n (i + 1)) = some s'
      rw [ht]; exact hs'
    · have : i + ((n + 1 : Nat) : Int) = i + 1 + n := by push_cast; omega
      rw [this]; exact hI'

/-- One more iteration at the end of a loop. -/
theorem forLoop_succ_last {σ : Type} (body : Int → σ → Option σ) :
    ∀ (n : Nat) (i : Int) (s : σ),
      forLoop body (n + 1) i s = (forLoop body n i s).bind (body (i + n)) := by
  intro n
  induction n with
  | zero =>
    intro i s
    show (body i s).bind (fun t => some t) = (some s).bind (body (i + ((0 : Nat) : Int)))
    simp
  | succ n ih =>
    intro i s
    show (body i s).bind (forLoop body (n + 1) (i + 1)) = _
    have : (forLoop body (n + 1) i s) = (body i s).bind (forLoop body n (i + 1)) := rfl
    rw [this]
    cases hb : body i s with
    | none => rfl
    | some t =>
      simp only [Option.some_bind]
      rw [ih (i + 1) t]
      have : i + 1 + (n : Int) = i + ((n + 1 : Nat) : Int) := by push_cast; omega
      rw [this]

/-- A loop whose bodies agree on the counter values it goes through. -/
theorem forLoop_congr {σ : Type} (f g : Int → σ → Option σ) :
    ∀ (n : Nat) (i : Int) (s : σ),
      (∀ (j : Int) (t : σ), i ≤ j → j < i + n → f j t = g j t) →
      forLoop f n i s = forLoop g n i s := by
  intro n
  induction n with
  | zero => intro i s _; rfl
  | succ n ih =>
    intro i s h
    show (f i s).bind (forLoop f n (i + 1)) = (g i s).bind (forLoop g n (i + 1))
    rw [h i s (le_refl i) (by push_cast; omega)]
    cases g i s with
    | none => rfl
    | some t =>
      simp only [Option.some_bind]
      exact ih (i + 1) t (fun j u h1 h2 => h j u (by omega) (by push_cast; omega))


/-! ## Actuator: auto-off, re-entrant trigger, debounce -/

/-- C6: for an ACTIVE bell the "Handle bell timing" block of `loop()` switches
the bell off (state IDLE, both pins low) exactly when the elapsed time
`millis() - bellStartTime`, computed in `unsigned long` arithmetic, is at least
`BELL_DURATION` = 1000 ms, and otherwise changes nothing; an IDLE bell is left
unchanged; after a trigger at t=0 the block at t=999 leaves the bell ACTIVE
and at t=1000 makes it IDLE. -/
theorem bellTiming_auto_off (s : State) (now : Nat) :
    (s.bellActive = true →
      ((bellTiming s now).bellActive = false ↔ BELL_DURATION ≤ ulSub now s.bellStartTime) ∧
      (BELL_DURATION ≤ ulSub now s.bellStartTime →
        (bellTiming s now).bellPin = false ∧ (bellTiming s now).ledPin = false) ∧
      (ulSub now s.bellStartTime < BELL_DURATION → bellTiming s now = s) ∧
      (bellTiming s now).bellStartTime = s.bellStartTime ∧
      (s.bellStartTime ≤ now → now < ULONG_MOD →
        ulSub now s.bellStartTime = now - s.bellStartTime)) ∧
    (s.bellActive = false → bellTiming s now = s) ∧
    (s.bellActive = false →
      (bellTiming (ringBell s 0) 999).bellActive = true ∧
      (bellTiming (ringBell s 0) 1000).bellActive = false) ∧
    BELL_DURATION = 1000 := by
  refine ⟨fun hact => ⟨?_, ?_, ?_, ?_, ?_⟩, ?_, ?_, rfl⟩
  · by_cases h : BELL_DURATION ≤ ulSub now s.bellStartTime
    · simp [bellTiming, hact, h]
    · simp [bellTiming, hact, h]
  · intro h
    simp [bellTiming, hact, h]
  · intro h
    have h' : ¬ BELL_DURATION ≤ ulSub now s.bellStartTime := by omega
    simp [bellTiming, h']
  · unfold bellTiming
    split <;> rfl
  · intro h1 h2
    exact ulSub_of_le now s.bellStartTime h1 h2
  · intro hidle
    simp [bellTiming, hidle]
  · intro hidle
    constructor
    · simp [bellTiming, ringBell, hidle, ulSub, ULONG_MOD, BELL_DURATION]
    · simp [bellTiming, ringBell, hidle, ulSub, ULONG_MOD, BELL_DURATION]

/-- Witness of C6 on the state a trigger at t=0 produces from the initial
state: the bell is ACTIVE, idle again at t=1000, untouched at t=999. -/
theorem bellTiming_auto_off_witness :
    (bellTiming (ringBell (State.init []) 0) 1000).bellActive = false ∧
    bellTiming (ringBell (State.init []) 0) 999 = ringBell (State.init []) 0 ∧
    bellTiming (State.init []) 5000 = State.init [] :=
  ⟨((bellTiming_auto_off (ringBell (State.init []) 0) 1000).1 (by decide)).1.2 (by decide),
   ((bellTiming_auto_off (ringBell (State.init []) 0) 999).1 (by decide)).2.2.1 (by decide),
   (bellTiming_auto_off (State.init []) 5000).2.1 (by decide)⟩

/-- C7: `ringBell()` on an ACTIVE bell changes nothing, whatever the time; on
an IDLE bell at time `t` it makes the bell ACTIVE with `bellStartTime = t` and
drives both pins high; hence after a trigger at `t0` from IDLE a second
trigger at any `t1` leaves the state as it was and the pulse still ends exactly
when `now - t0 >= BELL_DURATION`. -/
theorem ringBell_reentrant (s : State) (t0 t1 now : Nat) :
    (s.bellActive = true → ringBell s t1 = s) ∧
    (s.bellActive = false →
      (ringBell s t0).bellActive = true ∧ (ringBell s t0).bellStartTime = t0 ∧
      (ringBell s t0).bellPin = true ∧ (ringBell s t0).ledPin = true ∧
      ringBell (ringBell s t0) t1 = ringBell s t0 ∧
      ((bellTiming (ringBell (ringBell s t0) t1) now).bellActive = false ↔
        BELL_DURATION ≤ ulSub now t0)) := by
  refine ⟨fun hact => ?_, fun hidle => ⟨?_, ?_, ?_, ?_, ?_, ?_⟩⟩
  · simp [ringBell, hact]
  · simp [ringBell, hidle]
  · simp [ringBell, hidle]
  · simp [ringBell, hidle]
  · simp [ringBell, hidle]
  · simp [ringBell, hidle]
  · by_cases h : BELL_DURATION ≤ ulSub now t0
    · simp [bellTiming, ringBell, hidle, h]
    · simp [bellTiming, ringBell, hidle, h]

/-- Witness of C7: from the initial (IDLE) state a trigger at t=100 followed
by one at t=600 leaves the start time at 100. -/
theorem ringBell_reentrant_witness :
    ringBell (ringBell (State.init []) 100) 600 = ringBell (State.init []) 100 ∧
    (ringBell (State.init []) 100).bellStartTime = 100 ∧
    ringBell (ringBell (State.init []) 100) 600 = ringBell (State.init []) 100 :=
  ⟨(ringBell_reentrant (ringBell (State.init []) 100) 0 600 0).1 (by decide),
   ((ringBell_reentrant (State.init []) 100 600 0).2 (by decide)).2.1,
   ((ringBell_reentrant (State.init []) 100 600 0).2 (by decide)).2.2.2.2.1⟩

/-- C8 as stated fails: in the initial state (`lastButtonPress = 0`, bell
IDLE) a pressed button at t=0 does not ring the bell, since the elapsed time
`0 - 0 = 0` is not greater than `BUTTON_DEBOUNCE`. -/
theorem handleButton_at_zero_suppressed :
    handleButton (State.init []) false 0 0 0 = State.init [] ∧
    (handleButton (State.init []) false 0 0 0).bellActive = false ∧
    (handleButton (State.init []) false 0 0 0).serial = [] ∧
    handleButton (State.init []) false 0 0 0 ≠
      { ringBell (State.init []) 0 with lastButtonPress := 0 } := by
  decide

/-- C8 (amended): a pressed button (`level = LOW`) has the effect of
`ringBell()` followed by `lastButtonPress = millis()` when the elapsed time
`millis() - lastButtonPress` in `unsigned long` arithmetic is greater than
`BUTTON_DEBOUNCE` = 500, and no effect otherwise; a released button has no
effect.  From the initial state a press at t=0 and one at t=400 are both
suppressed and a press at t=600 rings the bell and sets `lastButtonPress` to
600. -/
theorem handleButton_debounce (s : State) (tCheck tRing tSet : Nat) :
    (BUTTON_DEBOUNCE < ulSub tCheck s.lastButtonPress →
      handleButton s false tCheck tRing tSet =
        { ringBell s tRing with lastButtonPress := tSet }) ∧
    (ulSub tCheck s.lastButtonPress ≤ BUTTON_DEBOUNCE →
      handleButton s false tCheck tRing tSet = s) ∧
    handleButton s true tCheck tRing tSet = s ∧
    BUTTON_DEBOUNCE = 500 ∧
    (s.bellActive = false → s.lastButtonPress = 0 →
      handleButton s false 0 0 0 = s ∧
      handleButton (handleButton s false 0 0 0) false 400 400 400 = s ∧
      handleButton (handleButton (handleButton s false 0 0 0) false 400 400 400)
          false 600 600 600 =
        { ringBell s 600 with lastButtonPress := 600 } ∧
      (handleButton (handleButton (handleButton s false 0 0 0) false 400 400 400)
          false 600 600 600).bellActive = true) := by
  refine ⟨fun h => ?_, fun h => ?_, ?_, rfl, fun hidle hlast => ?_⟩
  · simp [handleButton, h]
  · have h' : ¬ BUTTON_DEBOUNCE < ulSub tCheck s.lastButtonPress := by omega
    simp [handleButton, h']
  · simp [handleButton]
  · have h0 : handleButton s false 0 0 0 = s := by
      simp [handleButton, hlast, ulSub, ULONG_MOD, BUTTON_DEBOUNCE]
    have h400 : handleButton s false 400 400 400 = s := by
      simp [handleButton, hlast, ulSub, ULONG_MOD, BUTTON_DEBOUNCE]
    have h600 : handleButton s false 600 600 600 =
        { ringBell s 600 with lastButtonPress := 600 } := by
      simp [handleButton, hlast, ulSub, ULONG_MOD, BUTTON_DEBOUNCE]
    rw [h0, h400, h600]
    refine ⟨rfl, rfl, rfl, ?_⟩
    simp [ringBell, hidle]

/-- Witness of C8 (amended) on the initial state. -/
theorem handleButton_debounce_witness :
    handleButton (State.init []) false 600 600 600 =
      { ringBell (State.init []) 600 with lastButtonPress := 600 } ∧
    handleButton (State.init []) false 400 400 400 = State.init [] ∧
    (handleButton (handleButton (handleButton (State.init []) false 0 0 0) false 400 400 400)
      false 600 600 600).bellActive = true :=
  ⟨(handleButton_debounce (State.init []) 600 600 600).1 (by decide),
   (handleButton_debounce (State.init []) 400 400 400).2.1 (by decide),
   ((handleButton_debounce (State.init []) 0 0 0).2.2.2.2 (by decide) (by decide)).2.2.2⟩

/-- C9: when `getLocalTime` fails, `checkSchedules()` returns at once: it does
not fail and the whole state (every `triggered` flag, the count, the bell, the
pins, the store and the serial output, hence no "Schedule triggered" and no
"Bell ringing!" line) is unchanged. -/
theorem checkSchedules_clock_unavailable (s : State) (millis : Nat) :
    checkSchedules s none millis = some s := rfl


/-! ## The store: lookups after writes, distinct keys -/

theorem find_cons (p : Prefs) (k k' : String) (v : PrefVal) :
    Prefs.find ((k, v) :: p) k' = if k = k' then some v else Prefs.find p k' := by
  unfold Prefs.find
  by_cases h : k = k'
  · simp [List.find?_cons, h]
  · simp [List.find?_cons, h]

theorem find_putInt (p : Prefs) (k k' : String) (v : Int) :
    Prefs.find (putInt p k v) k' = if k = k' then some (PrefVal.int v) else Prefs.find p k' :=
  find_cons p k k' (PrefVal.int v)

theorem find_putBool (p : Prefs) (k k' : String) (b : Bool) :
    Prefs.find (putBool p k b) k' = if k = k' then some (PrefVal.bool b) else Prefs.find p k' :=
  find_cons p k k' (PrefVal.bool b)

theorem getInt_of_find (p : Prefs) (k : String) (v d : Int)
    (h : Prefs.find p k = some (PrefVal.int v)) : getInt p k d = v := by
  unfold getInt; rw [h]

theorem getBool_of_find (p : Prefs) (k : String) (b d : Bool)
    (h : Prefs.find p k = some (PrefVal.bool b)) : getBool p k d = b := by
  unfold getBool; rw [h]

theorem key_inj_fin : ∀ i j : Fin 20, ∀ f ∈ ["en", "day", "hr", "min"],
    ∀ g ∈ ["en", "day", "hr", "min"],
    key (i.val : Int) f = key (j.val : Int) g → i = j ∧ f = g := by
  decide

theorem key_ne_count_fin : ∀ i : Fin 20, ∀ f ∈ ["en", "day", "hr", "min"],
    key (i.val : Int) f ≠ "count" := by
  decide

/-- The keys of two different fields or of two different indices of the array
are different strings. -/
theorem key_inj (i j : Int) (f g : String)
    (hi0 : 0 ≤ i) (hi1 : i < MAX_SCHEDULES) (hj0 : 0 ≤ j) (hj1 : j < MAX_SCHEDULES)
    (hf : f ∈ ["en", "day", "hr", "min"]) (hg : g ∈ ["en", "day", "hr", "min"])
    (h : key i f = key j g) : i = j ∧ f = g := by
  have hM : MAX_SCHEDULES = 20 := rfl
  rw [hM] at hi1 hj1
  have hi : i = (((⟨i.toNat, by omega⟩ : Fin 20).val : Nat) : Int) := by
    simp only []; omega
  have hj : j = (((⟨j.toNat, by omega⟩ : Fin 20).val : Nat) : Int) := by
    simp only []; omega
  rw [hi, hj] at h
  have := key_inj_fin ⟨i.toNat, by omega⟩ ⟨j.toNat, by omega⟩ f hf g hg h
  refine ⟨?_, this.2⟩
  have h2 : i.toNat = j.toNat := by simpa using congrArg Fin.val this.1
  omega

theorem key_ne_count (i : Int) (f : String)
    (hi0 : 0 ≤ i) (hi1 : i < MAX_SCHEDULES) (hf : f ∈ ["en", "day", "hr", "min"]) :
    key i f ≠ "count" := by
  have hM : MAX_SCHEDULES = 20 := rfl
  rw [hM] at hi1
  have hi : i = (((⟨i.toNat, by omega⟩ : Fin 20).val : Nat) : Int) := by
    simp only []; omega
  rw [hi]
  exact key_ne_count_fin ⟨i.toNat, by omega⟩ f hf

theorem holds_putEntry_same (p : Prefs) (i : Int) (e : Schedule)
    (hi0 : 0 ≤ i) (hi1 : i < MAX_SCHEDULES) : Holds (putEntry p i e) i e := by
  have ne : ∀ f ∈ ["en", "day", "hr", "min"], ∀ g ∈ ["en", "day", "hr", "min"],
      f ≠ g → key i f ≠ key i g :=
    fun f hf g hg hne h => hne (key_inj i i f g hi0 hi1 hi0 hi1 hf hg h).2
  unfold Holds putEntry
  simp only [find_putInt, find_putBool]
  refine ⟨?_, ?_, ?_, ?_⟩
  · rw [if_neg (ne "min" (by simp) "en" (by simp) (by decide)),
      if_neg (ne "hr" (by simp) "en" (by simp) (by decide)),
      if_neg (ne "day" (by simp) "en" (by simp) (by decide))]
    exact if_pos trivial
  · rw [if_neg (ne "min" (by simp) "day" (by simp) (by decide)),
      if_neg (ne "hr" (by simp) "day" (by simp) (by decide))]
    exact if_pos trivial
  · rw [if_neg (ne "min" (by simp) "hr" (by simp) (by decide))]
    exact if_pos trivial
  · exact if_pos trivial

theorem find_putEntry_other (p : Prefs) (i : Int) (e : Schedule) (k : String)
    (h : ∀ f ∈ ["en", "day", "hr", "min"], key i f ≠ k) :
    Prefs.find (putEntry p i e) k = Prefs.find p k := by
  unfold putEntry
  simp only [find_putInt, find_putBool]
  rw [if_neg (h "min" (by simp)), if_neg (h "hr" (by simp)), if_neg (h "day" (by simp)),
    if_neg (h "en" (by simp))]

theorem holds_putEntry_ne (p : Prefs) (i j : Int) (e x : Schedule)
    (hi0 : 0 ≤ i) (hi1 : i < MAX_SCHEDULES) (hj0 : 0 ≤ j) (hj1 : j < MAX_SCHEDULES)
    (hne : i ≠ j) (h : Holds p j x) : Holds (putEntry p i e) j x := by
  have ne : ∀ g ∈ ["en", "day", "hr", "min"], ∀ f ∈ ["en", "day", "hr", "min"],
      key i f ≠ key j g :=
    fun g hg f hf hk => hne (key_inj i j f g hi0 hi1 hj0 hj1 hf hg hk).1
  unfold Holds
  rw [find_putEntry_other p i e _ (ne "en" (by simp)),
    find_putEntry_other p i e _ (ne "day" (by simp)),
    find_putEntry_other p i e _ (ne "hr" (by simp)),
    find_putEntry_other p i e _ (ne "min" (by simp))]
  exact h


/-! ## `saveSchedules` and `loadSchedules` -/

/-- Calling `saveSchedules()` on a count that fits the array does not fail, changes
only the store and the serial output, and leaves in the store the count and
the four fields of every entry below the count. -/
theorem saveSchedules_spec (s : State) (h1 : s.scheduleCount ≤ MAX_SCHEDULES) :
    ∃ p, saveSchedules s =
        some { s with preferences := p
                      serial := s.serial ++ [SerialLine.saved s.scheduleCount] } ∧
      Prefs.find p "count" = some (PrefVal.int s.scheduleCount) ∧
      ∀ (j : Int) (e : Schedule), 0 ≤ j → j < s.scheduleCount →
        rd s.schedules j = some e → Holds p j e := by
  have hrule := forLoop_rule saveBody
    (fun j t => t = { s with preferences := t.preferences } ∧
      Prefs.find t.preferences "count" = some (PrefVal.int s.scheduleCount) ∧
      ∀ (k : Int) (e : Schedule), 0 ≤ k → k < j →
        rd s.schedules k = some e → Holds t.preferences k e)
    s.scheduleCount.toNat 0
    { s with preferences := putInt s.preferences "count" s.scheduleCount }
    (by
      intro j t hj0 hj1 ⟨ht, hcount, hprev⟩
      have hjc : j < s.scheduleCount := by omega
      have hjM : j < MAX_SCHEDULES := by omega
      obtain ⟨e, he⟩ := rd_some_of_inBounds s.schedules j hj0 hjM
      have hts : t.schedules = s.schedules := by rw [ht]
      refine ⟨{ t with preferences := putEntry t.preferences j e }, ?_, ?_, ?_, ?_⟩
      · unfold saveBody
        rw [hts, he]
        rfl
      · show _ = { s with preferences := putEntry t.preferences j e }
        rw [ht]
      · show Prefs.find (putEntry t.preferences j e) "count" = _
        rw [find_putEntry_other _ _ _ _ (fun f hf => key_ne_count j f hj0 hjM hf)]
        exact hcount
      · intro k x hk0 hk1 hx
        show Holds (putEntry t.preferences j e) k x
        by_cases hkj : k = j
        · subst hkj
          rw [he] at hx
          cases hx
          exact holds_putEntry_same _ _ _ hk0 hjM
        · exact holds_putEntry_ne _ _ _ _ _ hj0 hjM hk0 (by omega) (Ne.symm hkj)
            (hprev k x hk0 (by omega) hx))
    ⟨rfl, by show Prefs.find (putInt _ _ _) _ = _; rw [find_putInt, if_pos rfl],
      fun k e hk0 hk1 _ => absurd hk1 (by omega)⟩
  obtain ⟨s2, hs2, hI, hcount, hall⟩ := hrule
  refine ⟨s2.preferences, ?_, hcount, ?_⟩
  · unfold saveSchedules
    show Option.map _ (forLoop saveBody s.scheduleCount.toNat 0 _) = _
    rw [hs2]
    show some _ = some _
    rw [hI]
  · intro j e hj0 hj1 he
    exact hall j e hj0 (by omega) he

/-- Calling `loadSchedules()` does not fail; the count becomes the stored count, or 0
when that exceeds `MAX_SCHEDULES`; every entry below the count is read from
the store with `triggered = false`; the entries from the count on, the store
and the actuator are unchanged. -/
theorem loadSchedules_spec (s : State) :
    ∃ a, loadSchedules s =
        some { s with
          schedules := a
          scheduleCount := if getInt s.preferences "count" 0 > MAX_SCHEDULES then 0
            else getInt s.preferences "count" 0
          serial := s.serial ++ [SerialLine.loaded
            (if getInt s.preferences "count" 0 > MAX_SCHEDULES then 0
              else getInt s.preferences "count" 0)] } ∧
      (∀ j : Int, 0 ≤ j → j < (if getInt s.preferences "count" 0 > MAX_SCHEDULES then 0
            else getInt s.preferences "count" 0) →
        rd a j = some (loadedEntry s.preferences j)) ∧
      (∀ j : Int, (if getInt s.preferences "count" 0 > MAX_SCHEDULES then 0
            else getInt s.preferences "count" 0) ≤ j → rd a j = rd s.schedules j) := by
  generalize hc : (if getInt s.preferences "count" 0 > (MAX_SCHEDULES : Int) then (0 : Int)
            else getInt s.preferences "count" 0) = c
  have hcM : c ≤ MAX_SCHEDULES := by
    rw [← hc]; split <;> omega
  have hrule := forLoop_rule loadBody
    (fun j t => t = { s with schedules := t.schedules, scheduleCount := c } ∧
      (∀ k : Int, 0 ≤ k → k < j → rd t.schedules k = some (loadedEntry s.preferences k)) ∧
      (∀ k : Int, j ≤ k → rd t.schedules k = rd s.schedules k))
    c.toNat 0 { s with scheduleCount := c }
    (by
      intro j t hj0 hj1 ⟨ht, hprev, hrest⟩
      have hjM : j < MAX_SCHEDULES := by omega
      have htp : t.preferences = s.preferences := by rw [ht]
      obtain ⟨a', ha'⟩ := wr_some_of_inBounds t.schedules j (loadedEntry s.preferences j) hj0 hjM
      refine ⟨{ t with schedules := a' }, ?_, ?_, ?_, ?_⟩
      · unfold loadBody
        rw [htp]
        show Option.map _ (wr t.schedules j (loadedEntry s.preferences j)) = _
        rw [ha']
        rfl
      · show _ = { s with schedules := a', scheduleCount := c }
        rw [ht]
      · intro k hk0 hk1
        show rd a' k = _
        by_cases hkj : k = j
        · subst hkj; exact rd_wr_same _ _ _ _ ha'
        · rw [rd_wr_ne _ _ _ _ _ ha' hkj]
          exact hprev k hk0 (by omega)
      · intro k hk
        show rd a' k = _
        rw [rd_wr_ne _ _ _ _ _ ha' (by omega)]
        exact hrest k (by omega))
    ⟨rfl, fun k hk0 hk1 => absurd hk1 (by omega), fun k _ => rfl⟩
  obtain ⟨s2, hs2, hI, hlow, hhigh⟩ := hrule
  refine ⟨s2.schedules, ?_, ?_, ?_⟩
  · unfold loadSchedules
    simp only []
    rw [hc]
    show Option.map _ (forLoop loadBody c.toNat 0 _) = _
    rw [hs2]
    show some _ = some _
    rw [hI]
  · intro j hj0 hj1
    exact hlow j hj0 (by omega)
  · intro j hj
    by_cases hneg : 0 ≤ j
    · exact hhigh j (by omega)
    · rw [rd_of_not_inBounds _ _ (fun h => hneg h.1), rd_of_not_inBounds _ _ (fun h => hneg h.1)]


/-! ## The add handler and the listing -/

/-- The add handler below capacity: the new entry is written at index
`scheduleCount`, the count grows by one and the registry is saved. -/
theorem postSchedule_below_capacity (s : State) (d h m : Int)
    (h0 : 0 ≤ s.scheduleCount) (h1 : s.scheduleCount < MAX_SCHEDULES) :
    ∃ a p, wr s.schedules s.scheduleCount ⟨true, d, h, m, false⟩ = some a ∧
      postSchedule s d h m =
        some ({ s with
                schedules := a
                scheduleCount := s.scheduleCount + 1
                preferences := p
                serial := s.serial ++ [SerialLine.saved (s.scheduleCount + 1)] },
              ⟨true, none⟩) ∧
      Prefs.find p "count" = some (PrefVal.int (s.scheduleCount + 1)) ∧
      ∀ (j : Int) (e : Schedule), 0 ≤ j → j < s.scheduleCount + 1 →
        rd a j = some e → Holds p j e := by
  obtain ⟨a, ha⟩ := wr_some_of_inBounds s.schedules s.scheduleCount ⟨true, d, h, m, false⟩ h0 h1
  obtain ⟨p, hp, hcount, hall⟩ := saveSchedules_spec
    { s with schedules := a, scheduleCount := s.scheduleCount + 1 }
    (by show s.scheduleCount + 1 ≤ MAX_SCHEDULES; omega)
  refine ⟨a, p, ha, ?_, hcount, hall⟩
  unfold postSchedule
  rw [if_neg (by omega), ha]
  show Option.map _ (saveSchedules _) = _
  rw [hp]
  rfl

/-- The add handler at capacity. -/
theorem postSchedule_at_capacity (s : State) (d h m : Int)
    (h1 : (MAX_SCHEDULES : Int) ≤ s.scheduleCount) :
    postSchedule s d h m = some (s, ⟨false, some "Maximum schedules reached"⟩) := by
  unfold postSchedule
  rw [if_pos h1]

theorem postMany_below_capacity : ∀ (reqs : List (Int × Int × Int)) (s : State),
    0 ≤ s.scheduleCount → s.scheduleCount + reqs.length ≤ MAX_SCHEDULES →
    ∃ s', postMany s reqs = some (s', List.replicate reqs.length true) ∧
      s'.scheduleCount = s.scheduleCount + reqs.length := by
  intro reqs
  induction reqs with
  | nil => intro s _ _; exact ⟨s, rfl, by simp⟩
  | cons r rest ih =>
    intro s h0 h1
    have hlen : ((r :: rest).length : Int) = rest.length + 1 := by simp
    obtain ⟨a, p, _, hpost, _, _⟩ :=
      postSchedule_below_capacity s r.1 r.2.1 r.2.2 h0 (by omega)
    obtain ⟨s', hs', hc'⟩ := ih
      { s with
        schedules := a
        scheduleCount := s.scheduleCount + 1
        preferences := p
        serial := s.serial ++ [SerialLine.saved (s.scheduleCount + 1)] }
      (by show 0 ≤ s.scheduleCount + 1; omega)
      (by show s.scheduleCount + 1 + (rest.length : Int) ≤ MAX_SCHEDULES; omega)
    refine ⟨s', ?_, ?_⟩
    · show (postSchedule s r.1 r.2.1 r.2.2).bind _ = _
      rw [hpost]
      simp only [Option.some_bind]
      rw [hs']
      rfl
    · rw [hc', hlen]
      show s.scheduleCount + 1 + (rest.length : Int) = _
      omega

/-- The listing does not fail on a count that fits the array. -/
theorem getSchedules_some (s : State) (h1 : s.scheduleCount ≤ MAX_SCHEDULES) :
    ∃ l, getSchedules s = some l := by
  obtain ⟨l, hl, _⟩ := forLoop_rule (listBody s) (fun _ _ => True) s.scheduleCount.toNat 0 []
    (by
      intro j acc hj0 hj1 _
      obtain ⟨e, he⟩ := rd_some_of_inBounds s.schedules j hj0 (by omega)
      refine ⟨if e.enabled then acc ++ [⟨e.dayOfWeek, e.hour, e.minute⟩] else acc, ?_, trivial⟩
      unfold listBody
      rw [he]
      rfl)
    trivial
  exact ⟨l, hl⟩

/-- The listing depends only on the count and on the persisted fields of the
entries below the count. -/
theorem getSchedules_congr (s t : State) (hc : s.scheduleCount = t.scheduleCount)
    (h : ∀ j : Int, 0 ≤ j → j < s.scheduleCount →
      ∃ e, rd t.schedules j = some e ∧
        rd s.schedules j = some { e with triggered := false }) :
    getSchedules s = getSchedules t := by
  unfold getSchedules
  rw [← hc]
  apply forLoop_congr
  intro j acc hj0 hj1
  obtain ⟨e, he, he'⟩ := h j hj0 (by omega)
  unfold listBody
  rw [he, he']
  rfl

/-- The listing after one more entry was written at index `scheduleCount`. -/
theorem getSchedules_append (s : State) (x : Schedule) (a : ScheduleArray) (s' : State)
    (h0 : 0 ≤ s.scheduleCount) (ha : wr s.schedules s.scheduleCount x = some a)
    (hs : s'.schedules = a) (hc : s'.scheduleCount = s.scheduleCount + 1) :
    getSchedules s' =
      (getSchedules s).map fun l =>
        if x.enabled then l ++ [⟨x.dayOfWeek, x.hour, x.minute⟩] else l := by
  unfold getSchedules
  have hn : s'.scheduleCount.toNat = s.scheduleCount.toNat + 1 := by omega
  rw [hn, forLoop_succ_last]
  have hcongr : forLoop (listBody s') s.scheduleCount.toNat 0 [] =
      forLoop (listBody s) s.scheduleCount.toNat 0 [] := by
    apply forLoop_congr
    intro j acc hj0 hj1
    unfold listBody
    rw [hs, rd_wr_ne _ _ _ _ _ ha (by omega)]
  rw [hcongr]
  cases forLoop (listBody s) s.scheduleCount.toNat 0 [] with
  | none => rfl
  | some l =>
    simp only [Option.some_bind, Option.map_some']
    have hidx : (0 : Int) + (s.scheduleCount.toNat : Int) = s.scheduleCount := by omega
    unfold listBody
    rw [hidx, hs, rd_wr_same _ _ _ _ ha]
    rfl


theorem loadedEntry_of_holds (p : Prefs) (j : Int) (e : Schedule) (h : Holds p j e) :
    loadedEntry p j = { e with triggered := false } := by
  obtain ⟨hen, hday, hhr, hmin⟩ := h
  unfold loadedEntry
  rw [getBool_of_find _ _ _ _ hen, getInt_of_find _ _ _ _ hday, getInt_of_find _ _ _ _ hhr,
    getInt_of_find _ _ _ _ hmin]

/-! ## Claims about the add handler -/

/-- C1 fails on the code: the struct comments give the ranges of the fields
(`dayOfWeek` 0..6, `hour` 0-23, `minute` 0-59) but the add handler never
checks them, so from the empty registry the add requests with day 7, with
hour 24 and with minute 60 all report success, raise the count to 1 and store
the out-of-range value in the new entry. -/
theorem postSchedule_accepts_out_of_range :
    (postSchedule (State.init []) 7 0 0).map
        (fun r => (r.2.success, r.1.scheduleCount, rd r.1.schedules 0)) =
      some (true, 1, some ⟨true, 7, 0, 0, false⟩) ∧
    (postSchedule (State.init []) 0 24 0).map
        (fun r => (r.2.success, r.1.scheduleCount, rd r.1.schedules 0)) =
      some (true, 1, some ⟨true, 0, 24, 0, false⟩) ∧
    (postSchedule (State.init []) 0 0 60).map
        (fun r => (r.2.success, r.1.scheduleCount, rd r.1.schedules 0)) =
      some (true, 1, some ⟨true, 0, 0, 60, false⟩) := by
  decide

/-- C2: with `scheduleCount = MAX_SCHEDULES` (= 20) the add handler reports
`success = false` with the message "Maximum schedules reached" for any field
values and changes nothing (count and entries included); and starting from the
empty registry any `MAX_SCHEDULES` successive adds (valid or not) all succeed,
leave the count at `MAX_SCHEDULES`, and a further add then fails and changes
nothing. -/
theorem postSchedule_capacity (s : State) (d h m : Int) (p : Prefs)
    (reqs : List (Int × Int × Int)) :
    (s.scheduleCount = MAX_SCHEDULES →
      postSchedule s d h m = some (s, ⟨false, some "Maximum schedules reached"⟩)) ∧
    (reqs.length = MAX_SCHEDULES →
      ∃ s', postMany (State.init p) reqs = some (s', List.replicate MAX_SCHEDULES true) ∧
        s'.scheduleCount = MAX_SCHEDULES ∧
        postSchedule s' d h m = some (s', ⟨false, some "Maximum schedules reached"⟩) ∧
        postMany (State.init p) (reqs ++ [(d, h, m)]) =
          some (s', List.replicate MAX_SCHEDULES true ++ [false])) ∧
    MAX_SCHEDULES = 20 := by
  refine ⟨fun hc => postSchedule_at_capacity s d h m (by omega), fun hlen => ?_, rfl⟩
  obtain ⟨s', hs', hc'⟩ := postMany_below_capacity reqs (State.init p) (le_refl _)
    (by show (0 : Int) + (reqs.length : Int) ≤ MAX_SCHEDULES; omega)
  have hcount : s'.scheduleCount = MAX_SCHEDULES := by
    rw [hc']; show (0 : Int) + (reqs.length : Int) = MAX_SCHEDULES; omega
  have hfail := postSchedule_at_capacity s' d h m (by omega)
  rw [hlen] at hs'
  refine ⟨s', hs', hcount, hfail, ?_⟩
  have happ : ∀ (l : List (Int × Int × Int)) (t t' : State) (bs : List Bool),
      postMany t l = some (t', bs) →
      postMany t (l ++ [(d, h, m)]) =
        (postSchedule t' d h m).map fun q => (q.1, bs ++ [q.2.success]) := by
    intro l
    induction l with
    | nil =>
      intro t t' bs ht
      cases ht
      show (postSchedule t d h m).bind _ = _
      cases postSchedule t d h m <;> rfl
    | cons r rest ih =>
      intro t t' bs ht
      have hdef : postMany t (r :: rest) =
        (postSchedule t r.1 r.2.1 r.2.2).bind fun q =>
          (postMany q.1 rest).map fun z => (z.1, q.2.success :: z.2) := rfl
      rw [hdef] at ht
      show (postSchedule t r.1 r.2.1 r.2.2).bind _ = _
      cases hq : postSchedule t r.1 r.2.1 r.2.2 with
      | none => rw [hq] at ht; cases ht
      | some q =>
        rw [hq] at ht
        simp only [Option.some_bind] at ht ⊢
        cases hz : postMany q.1 rest with
        | none => rw [hz] at ht; cases ht
        | some z =>
          rw [hz] at ht
          cases ht
          show Option.map _ (postMany q.1 (rest ++ [(d, h, m)])) = _
          rw [ih q.1 z.1 z.2 hz]
          cases postSchedule z.1 d h m <;> rfl
  rw [happ reqs (State.init p) s' _ hs', hfail]
  rfl

/-- Witness of C2: a registry whose count is 20, and twenty adds of Monday
08:30 from the empty registry followed by a twenty-first. -/
theorem postSchedule_capacity_witness :
    postSchedule { State.init [] with scheduleCount := 20 } 1 8 30 =
      some ({ State.init [] with scheduleCount := 20 },
        ⟨false, some "Maximum schedules reached"⟩) ∧
    ∃ s', postMany (State.init []) (List.replicate 20 (1, 8, 30)) =
        some (s', List.replicate MAX_SCHEDULES true) ∧
      s'.scheduleCount = MAX_SCHEDULES ∧
      postSchedule s' 1 8 30 = some (s', ⟨false, some "Maximum schedules reached"⟩) ∧
      postMany (State.init []) (List.replicate 20 (1, 8, 30) ++ [(1, 8, 30)]) =
        some (s', List.replicate MAX_SCHEDULES true ++ [false]) :=
  ⟨(postSchedule_capacity { State.init [] with scheduleCount := 20 } 1 8 30 [] []).1
     (by decide),
   (postSchedule_capacity (State.init []) 1 8 30 [] (List.replicate 20 (1, 8, 30))).2.1
     (by decide)⟩

/-- C4: for a registry with `0 <= scheduleCount < MAX_SCHEDULES` and any
(day, hour, minute), in particular any valid one, the add succeeds; the
listing of `GET /schedules` afterwards is the listing before with exactly one
element carrying those three values appended; and `loadSchedules()` run on any
state whose store is the one the add left (for instance after a reboot)
does not fail and yields the same count, at every index below the count the
same `enabled`, `dayOfWeek`, `hour`, `minute` with `triggered = false`, and
therefore the same listing. -/
theorem add_list_load_roundtrip (s : State) (d h m : Int)
    (h0 : 0 ≤ s.scheduleCount) (h1 : s.scheduleCount < MAX_SCHEDULES) :
    ∃ s' l, postSchedule s d h m = some (s', ⟨true, none⟩) ∧
      getSchedules s = some l ∧
      getSchedules s' = some (l ++ [⟨d, h, m⟩]) ∧
      ∀ boot : State, boot.preferences = s'.preferences →
        ∃ s'', loadSchedules boot = some s'' ∧
          s''.scheduleCount = s'.scheduleCount ∧
          (∀ j : Int, 0 ≤ j → j < s'.scheduleCount →
            ∃ e, rd s'.schedules j = some e ∧
              rd s''.schedules j = some { e with triggered := false }) ∧
          getSchedules s'' = some (l ++ [⟨d, h, m⟩]) := by
  obtain ⟨a, p, ha, hpost, hcount, hall⟩ := postSchedule_below_capacity s d h m h0 h1
  obtain ⟨l, hl⟩ := getSchedules_some s (by omega)
  have hlist : getSchedules
      { s with
        schedules := a
        scheduleCount := s.scheduleCount + 1
        preferences := p
        serial := s.serial ++ [SerialLine.saved (s.scheduleCount + 1)] } =
      some (l ++ [⟨d, h, m⟩]) := by
    rw [getSchedules_append s ⟨true, d, h, m, false⟩ a _ h0 ha rfl rfl, hl]
    rfl
  refine ⟨_, l, hpost, hl, hlist, ?_⟩
  intro boot hboot
  have hbp : boot.preferences = p := hboot
  obtain ⟨a2, hload, hlow, _⟩ := loadSchedules_spec boot
  have hget : getInt boot.preferences "count" 0 = s.scheduleCount + 1 := by
    rw [hbp]; exact getInt_of_find _ _ _ _ hcount
  have hite : (if getInt boot.preferences "count" 0 > (MAX_SCHEDULES : Int) then (0 : Int)
      else getInt boot.preferences "count" 0) = s.scheduleCount + 1 := by
    rw [hget, if_neg (by omega)]
  rw [hite] at hload hlow
  have hentries : ∀ j : Int, 0 ≤ j → j < s.scheduleCount + 1 →
      ∃ e, rd a j = some e ∧ rd a2 j = some { e with triggered := false } := by
    intro j hj0 hj1
    obtain ⟨e, he⟩ := rd_some_of_inBounds a j hj0 (by omega)
    refine ⟨e, he, ?_⟩
    rw [hlow j hj0 hj1, hbp, loadedEntry_of_holds p j e (hall j e hj0 hj1 he)]
  refine ⟨_, hload, rfl, hentries, ?_⟩
  rw [← hlist]
  exact getSchedules_congr _ _ rfl hentries

/-- Witness of C4: Monday 08:30 added to the empty registry, then loaded into
the state of a fresh boot holding the store the add wrote. -/
theorem add_list_load_roundtrip_witness :
    ∃ s' l, postSchedule (State.init []) 1 8 30 = some (s', ⟨true, none⟩) ∧
      getSchedules (State.init []) = some l ∧
      getSchedules s' = some (l ++ [⟨1, 8, 30⟩]) ∧
      ∃ s'', loadSchedules (State.init s'.preferences) = some s'' ∧
        s''.scheduleCount = s'.scheduleCount ∧
        (∀ j : Int, 0 ≤ j → j < s'.scheduleCount →
          ∃ e, rd s'.schedules j = some e ∧
            rd s''.schedules j = some { e with triggered := false }) ∧
        getSchedules s'' = some (l ++ [⟨1, 8, 30⟩]) :=
  match add_list_load_roundtrip (State.init []) 1 8 30 (by decide) (by decide) with
  | ⟨s', l, hpost, hl, hlist, hload⟩ =>
    ⟨s', l, hpost, hl, hlist, hload (State.init s'.preferences) rfl⟩

/-- C10 fails on the code for a negative stored count: `loadSchedules()` only
resets a count greater than `MAX_SCHEDULES`, so with -1 stored under "count"
the loaded count is -1, and the add handler then writes `schedules[-1]`,
outside the array (the embedding returns `none`). -/
theorem loadSchedules_negative_count :
    (loadSchedules (State.init [("count", PrefVal.int (-1))])).map
        (fun s => s.scheduleCount) = some (-1) ∧
    (loadSchedules (State.init [("count", PrefVal.int 21)])).map
        (fun s => s.scheduleCount) = some 0 ∧
    ((loadSchedules (State.init [("count", PrefVal.int (-1))])).bind
        fun s => postSchedule s 1 8 30) = none ∧
    wr (State.init []).schedules (-1) ⟨true, 1, 8, 30, false⟩ = none := by
  decide


/-! ## The delete handler -/

/-- The shifting loop of the delete handler, started at `k` on a count that
fits the array: it does not fail, touches only the array, and moves every
entry of `k+1 .. scheduleCount-1` one position down. -/
theorem shift_spec (s : State) (k : Int) (hk0 : 0 ≤ k) (hc : s.scheduleCount ≤ MAX_SCHEDULES) :
    ∃ a, forLoop shiftBody (s.scheduleCount - 1 - k).toNat k s =
        some { s with schedules := a } ∧
      ∀ m : Int, rd a m =
        if k ≤ m ∧ m < k + ((s.scheduleCount - 1 - k).toNat : Int)
        then rd s.schedules (m + 1) else rd s.schedules m := by
  have hrule := forLoop_rule shiftBody
    (fun j t => t = { s with schedules := t.schedules } ∧
      ∀ m : Int, rd t.schedules m =
        if k ≤ m ∧ m < j then rd s.schedules (m + 1) else rd s.schedules m)
    (s.scheduleCount - 1 - k).toNat k s
    (by
      intro j t hj0 hj1 ⟨ht, hinv⟩
      obtain ⟨e, he⟩ := rd_some_of_inBounds s.schedules (j + 1) (by omega) (by omega)
      have hread : rd t.schedules (j + 1) = some e := by
        rw [hinv (j + 1), if_neg (by omega)]; exact he
      obtain ⟨a', ha'⟩ := wr_some_of_inBounds t.schedules j e (by omega) (by omega)
      refine ⟨{ t with schedules := a' }, ?_, ?_, ?_⟩
      · unfold shiftBody
        rw [hread]
        show Option.map _ (wr t.schedules j e) = _
        rw [ha']
        rfl
      · show _ = { s with schedules := a' }
        rw [ht]
      · intro m
        show rd a' m = _
        by_cases hmj : m = j
        · subst hmj
          rw [rd_wr_same _ _ _ _ ha', if_pos ⟨hj0, by omega⟩, he]
        · rw [rd_wr_ne _ _ _ _ _ ha' hmj, hinv m]
          by_cases hcond : k ≤ m ∧ m < j
          · rw [if_pos hcond, if_pos ⟨hcond.1, by omega⟩]
          · rw [if_neg hcond, if_neg (by omega)])
    ⟨rfl, fun m => by rw [if_neg (by omega)]⟩
  obtain ⟨s1, hs1, hI, hinv⟩ := hrule
  refine ⟨s1.schedules, ?_, hinv⟩
  rw [hs1, hI]

/-- C3: in a registry whose count `c` fits the array, `DELETE /schedule/k`
with `0 <= k < c` succeeds, the count becomes `c - 1`, the entries at
positions below `k` are unchanged and the entry at each position `i` with
`k <= i < c - 1` is the old entry at `i + 1`; with `k < 0` or `k >= c`
(whatever the count) it reports `success = false` and changes nothing. -/
theorem deleteSchedule_shifts (s : State) (k : Int) :
    (s.scheduleCount ≤ MAX_SCHEDULES → 0 ≤ k → k < s.scheduleCount →
      ∃ s', deleteSchedule s k = some (s', ⟨true, none⟩) ∧
        s'.scheduleCount = s.scheduleCount - 1 ∧
        (∀ j : Int, 0 ≤ j → j < k → rd s'.schedules j = rd s.schedules j) ∧
        (∀ j : Int, k ≤ j → j < s.scheduleCount - 1 →
          (∃ e, rd s.schedules (j + 1) = some e) ∧
          rd s'.schedules j = rd s.schedules (j + 1))) ∧
    (k < 0 ∨ s.scheduleCount ≤ k → deleteSchedule s k = some (s, ⟨false, none⟩)) := by
  constructor
  · intro hc hk0 hk1
    obtain ⟨a, hloop, hshift⟩ := shift_spec s k hk0 hc
    obtain ⟨p, hsave, _, _⟩ := saveSchedules_spec
      { s with schedules := a, scheduleCount := s.scheduleCount - 1 }
      (by show s.scheduleCount - 1 ≤ MAX_SCHEDULES; omega)
    refine ⟨{ s with
        schedules := a
        scheduleCount := s.scheduleCount - 1
        preferences := p
        serial := s.serial ++ [SerialLine.saved (s.scheduleCount - 1)] }, ?_, ?_, ?_, ?_⟩
    · unfold deleteSchedule
      rw [if_pos ⟨by omega, hk1⟩, hloop]
      simp only [Option.some_bind]
      show Option.map _ (saveSchedules
        { s with schedules := a, scheduleCount := s.scheduleCount - 1 }) = _
      rw [hsave]
      rfl
    · rfl
    · intro j _ hj1
      show rd a j = _
      rw [hshift j, if_neg (by omega)]
    · intro j hj0 hj1
      refine ⟨rd_some_of_inBounds s.schedules (j + 1) (by omega) (by omega), ?_⟩
      show rd a j = _
      rw [hshift j, if_pos ⟨hj0, by omega⟩]
  · intro h
    unfold deleteSchedule
    rw [if_neg (by omega)]

/-- Witness of C3: in the sample registry of three schedules the middle one
is deleted; and a delete at index 3 of the same registry fails. -/
theorem deleteSchedule_shifts_witness :
    (∃ s', deleteSchedule State.sample 1 = some (s', ⟨true, none⟩) ∧
      s'.scheduleCount = State.sample.scheduleCount - 1 ∧
      (∀ j : Int, 0 ≤ j → j < 1 → rd s'.schedules j = rd State.sample.schedules j) ∧
      (∀ j : Int, 1 ≤ j → j < State.sample.scheduleCount - 1 →
        (∃ e, rd State.sample.schedules (j + 1) = some e) ∧
        rd s'.schedules j = rd State.sample.schedules (j + 1))) ∧
    deleteSchedule State.sample 3 = some (State.sample, ⟨false, none⟩) :=
  ⟨(deleteSchedule_shifts State.sample 1).1 (by decide) (by decide) (by decide),
   (deleteSchedule_shifts State.sample 3).2 (Or.inr (by decide))⟩

/-! ## The trigger evaluator -/

theorem due_eq_true_iff (e : Schedule) (t : Tm) :
    e.due t = true ↔ e.enabled = true ∧ e.sameMinute t := by
  unfold Schedule.due Schedule.sameMinute
  simp [and_assoc]

theorem firedCount_ringBell (i : Int) (s : State) (millis : Nat) :
    firedCount i (ringBell s millis) = firedCount i s := by
  unfold firedCount ringBell
  split
  · simp [List.count_append, List.count_singleton]
  · rfl

theorem sameMinute_unique (e : Schedule) (t t' : Tm)
    (h : e.sameMinute t) (h' : e.sameMinute t') : t = t' := by
  obtain ⟨h1, h2, h3⟩ := h
  obtain ⟨h1', h2', h3'⟩ := h'
  cases t
  cases t'
  simp only [Tm.mk.injEq]
  exact ⟨h1.symm.trans h1', h2.symm.trans h2', h3.symm.trans h3'⟩

theorem ringBell_bell (s : State) (millis : Nat) :
    (ringBell s millis).bell = s.bell ∨ (ringBell s millis).bell = (true, millis, true, true) := by
  unfold ringBell
  split
  · exact Or.inr rfl
  · exact Or.inl rfl

/-- The button handling and the bell timing of `loop()` leave the registry
alone. -/
theorem actuator_frame (u : State) (level : Bool) (tCheck tRing tSet tOff : Nat) :
    (bellTiming (handleButton u level tCheck tRing tSet) tOff).schedules = u.schedules ∧
    (bellTiming (handleButton u level tCheck tRing tSet) tOff).scheduleCount =
      u.scheduleCount := by
  simp only [bellTiming, handleButton, ringBell]
  split_ifs <;> exact ⟨rfl, rfl⟩

/-- Writing to a position the entry it already holds changes nothing. -/
theorem wr_rd_self (a : ScheduleArray) (j : Int) (x : Schedule) (h : rd a j = some x) :
    wr a j x = some a := by
  have hb : 0 ≤ j ∧ j < MAX_SCHEDULES := by
    by_contra hcon
    rw [rd_of_not_inBounds _ _ hcon] at h
    cases h
  obtain ⟨a', ha'⟩ := wr_some_of_inBounds a j x hb.1 hb.2
  have heq : a' = a := by
    apply ScheduleArray.ext_rd
    intro k
    by_cases hk : k = j
    · subst hk; rw [rd_wr_same _ _ _ _ ha', h]
    · exact rd_wr_ne _ _ _ _ _ ha' hk
  rw [ha', heq]

/-- One iteration of the loop of `checkSchedules` on an index inside the
array. -/
theorem checkBody_spec (t : Tm) (millis : Nat) (j : Int) (s : State) (e : Schedule)
    (he : rd s.schedules j = some e) :
    ∃ s', checkBody t millis j s = some s' ∧
      s'.scheduleCount = s.scheduleCount ∧
      rd s'.schedules j = some { e with triggered := e.due t } ∧
      (∀ k : Int, k ≠ j → rd s'.schedules k = rd s.schedules k) ∧
      (∀ i : Int, firedCount i s' = firedCount i s +
        if j = i ∧ e.due t = true ∧ e.triggered = false then 1 else 0) ∧
      (s.bellActive = true → s'.bellActive = true) ∧
      (e.due t = true → e.triggered = false → s'.bellActive = true) ∧
      (s'.bell = s.bell ∨ s'.bell = (true, millis, true, true)) := by
  have hb : 0 ≤ j ∧ j < MAX_SCHEDULES := by
    by_contra hcon
    rw [rd_of_not_inBounds _ _ hcon] at he
    cases he
  by_cases hdue : e.due t = true
  · by_cases htr : e.triggered = true
    · refine ⟨s, ?_, rfl, ?_, fun _ _ => rfl, ?_, fun h => h, ?_, Or.inl rfl⟩
      · unfold checkBody
        rw [he]
        simp [hdue, htr]
      · rw [he, hdue, ← htr]
      · intro i
        rw [if_neg (by simp [htr])]
        rfl
      · intro _ h
        rw [htr] at h
        cases h
    · have htr' : e.triggered = false := by simpa using htr
      obtain ⟨a', ha'⟩ := wr_some_of_inBounds (ringBell s millis).schedules j
        { e with triggered := true } hb.1 hb.2
      have hsch : (ringBell s millis).schedules = s.schedules := by
        unfold ringBell; split <;> rfl
      have hcnt : (ringBell s millis).scheduleCount = s.scheduleCount := by
        unfold ringBell; split <;> rfl
      have hact : (ringBell s millis).bellActive = true := by
        unfold ringBell
        split
        · rfl
        · rename_i h; simpa using h
      refine ⟨{ ringBell s millis with
          schedules := a'
          serial := (ringBell s millis).serial ++ [SerialLine.scheduleTriggered j] },
        ?_, hcnt, ?_, ?_, ?_, fun _ => hact, fun _ _ => hact, ringBell_bell s millis⟩
      · unfold checkBody
        rw [he]
        simp only [Option.some_bind, hdue, htr', if_true]
        show Option.map _ (wr (ringBell s millis).schedules j { e with triggered := true }) = _
        rw [ha']
        rfl
      · show rd a' j = _
        rw [rd_wr_same _ _ _ _ ha', hdue]
      · intro k hk
        show rd a' k = _
        rw [rd_wr_ne _ _ _ _ _ ha' hk, hsch]
      · intro i
        show List.count _ ((ringBell s millis).serial ++ [SerialLine.scheduleTriggered j]) = _
        rw [List.count_append, List.count_singleton]
        have := firedCount_ringBell i s millis
        unfold firedCount at this ⊢
        rw [this]
        by_cases hji : j = i
        · subst hji
          simp [hdue, htr']
        · have hne : ¬ (SerialLine.scheduleTriggered j == SerialLine.scheduleTriggered i) = true := by
            simp [hji]
          rw [if_neg hne, if_neg (by simp [hji])]
  · have hdue' : e.due t = false := by simpa using hdue
    obtain ⟨a', ha'⟩ := wr_some_of_inBounds s.schedules j { e with triggered := false } hb.1 hb.2
    refine ⟨{ s with schedules := a' }, ?_, rfl, ?_, ?_, ?_, fun h => h, ?_, Or.inl rfl⟩
    · unfold checkBody
      rw [he]
      simp only [Option.some_bind, hdue']
      show Option.map _ (wr s.schedules j { e with triggered := false }) = _
      rw [ha']
      rfl
    · show rd a' j = _
      rw [rd_wr_same _ _ _ _ ha', hdue']
    · intro k hk
      exact rd_wr_ne _ _ _ _ _ ha' hk
    · intro i
      rw [if_neg (by simp [hdue'])]
      rfl
    · intro h
      exact absurd h hdue

/-- One call of `checkSchedules()` with the clock available, seen from the
schedule at index `i` of a registry whose count fits the array: the call does
not fail, the schedule's `triggered` flag becomes the value of the match
condition, `ringBell()` is called for it exactly when the condition holds and
the flag was clear, the actuator is either untouched or was started at the
time `millis`, and afterwards every schedule below the count has its flag
equal to its match condition. -/
theorem checkSchedules_tick (s : State) (t : Tm) (millis : Nat) (i : Int) (e : Schedule)
    (hc : s.scheduleCount ≤ MAX_SCHEDULES) (hi0 : 0 ≤ i) (hi1 : i < s.scheduleCount)
    (he : rd s.schedules i = some e) :
    ∃ s', checkSchedules s (some t) millis = some s' ∧
      s'.scheduleCount = s.scheduleCount ∧
      rd s'.schedules i = some { e with triggered := e.due t } ∧
      firedCount i s' = firedCount i s +
        (if e.due t = true ∧ e.triggered = false then 1 else 0) ∧
      (e.due t = true → e.triggered = false → s'.bellActive = true) ∧
      (s'.bell = s.bell ∨ s'.bell = (true, millis, true, true)) ∧
      Settled s'.schedules s'.scheduleCount t := by
  have hrule := forLoop_rule (checkBody t millis)
    (fun j u => u.scheduleCount = s.scheduleCount ∧
      (∀ k : Int, j ≤ k → rd u.schedules k = rd s.schedules k) ∧
      (j ≤ i → firedCount i u = firedCount i s) ∧
      (i < j → rd u.schedules i = some { e with triggered := e.due t } ∧
        firedCount i u = firedCount i s +
          (if e.due t = true ∧ e.triggered = false then 1 else 0) ∧
        (e.due t = true → e.triggered = false → u.bellActive = true)) ∧
      (u.bell = s.bell ∨ u.bell = (true, millis, true, true)) ∧
      Settled u.schedules j t)
    s.scheduleCount.toNat 0 s
    (by
      intro j u hj0 hj1 ⟨hcnt, hrest, hbefore, hafter, hbellinv, hset⟩
      obtain ⟨x, hx⟩ := rd_some_of_inBounds u.schedules j hj0 (by omega)
      obtain ⟨u', hu', hcnt', hsame, hother, hfired, hbell, hbell', hbellstep⟩ :=
        checkBody_spec t millis j u x hx
      refine ⟨u', hu', by rw [hcnt', hcnt], ?_, ?_, ?_, ?_, ?_⟩
      · intro k hk
        rw [hother k (by omega)]
        exact hrest k (by omega)
      · intro hle
        rw [hfired i, if_neg (by omega)]
        exact hbefore (by omega)
      · intro hlt
        by_cases hji : j = i
        · subst hji
          have hxe : x = e := by
            have := hrest j (le_refl j)
            rw [hx, he] at this
            exact Option.some.inj this
          subst hxe
          refine ⟨hsame, ?_, hbell'⟩
          rw [hfired j, hbefore (le_refl j)]
          simp
        · obtain ⟨h1, h2, h3⟩ := hafter (by omega)
          refine ⟨?_, ?_, fun hd htr => hbell (h3 hd htr)⟩
          · rw [hother i (Ne.symm hji)]; exact h1
          · rw [hfired i, if_neg (by omega)]; exact h2
      · rcases hbellstep with h | h
        · rw [h]; exact hbellinv
        · exact Or.inr h
      · intro k hk0 hk1
        by_cases hkj : k = j
        · subst hkj
          exact ⟨_, hsame, rfl⟩
        · rw [hother k hkj]
          exact hset k hk0 (by omega))
    ⟨rfl, fun _ _ => rfl, fun _ => rfl, fun h => absurd h (by omega), Or.inl rfl,
      fun k hk0 hk1 => absurd hk1 (by omega)⟩
  obtain ⟨s', hs', hcnt, _, _, hafter, hbellinv, hset⟩ := hrule
  obtain ⟨h1, h2, h3⟩ := hafter (by omega)
  refine ⟨s', hs', hcnt, h1, h2, h3, hbellinv, ?_⟩
  intro k hk0 hk1
  rw [hcnt] at hk1
  exact hset k hk0 (by omega)

/-- On a registry in which every flag already equals its match condition at
time `t`, `checkSchedules()` at time `t` returns the state as it is, whatever
the actuator state: no `ringBell()` call takes effect and no line is
printed. -/
theorem checkSchedules_settled_id (u : State) (t : Tm) (millis : Nat)
    (hset : Settled u.schedules u.scheduleCount t) :
    checkSchedules u (some t) millis = some u := by
  obtain ⟨u', hu', hI⟩ := forLoop_rule (checkBody t millis) (fun _ v => v = u)
    u.scheduleCount.toNat 0 u
    (by
      intro j v hj0 hj1 hv
      subst hv
      obtain ⟨x, hx, htr⟩ := hset j hj0 (by omega)
      refine ⟨v, ?_, rfl⟩
      unfold checkBody
      rw [hx]
      simp only [Option.some_bind]
      cases hd : x.due t with
      | true =>
        rw [hd] at htr
        simp [htr]
      | false =>
        rw [hd] at htr
        have hxx : ({ x with triggered := false } : Schedule) = x := by
          cases x
          simp only [Schedule.mk.injEq, true_and]
          exact htr.symm
        simp only [Bool.false_eq_true, if_false]
        rw [hxx, wr_rd_self _ _ _ hx]
        rfl)
    rfl
  show forLoop (checkBody t millis) u.scheduleCount.toNat 0 u = some u
  rw [hu', hI]

theorem runTicks_id (u : State) :
    ∀ l : List (Option Tm × Nat), (∀ x ∈ l, checkSchedules u x.1 x.2 = some u) →
      runTicks u l = some u := by
  intro l
  induction l with
  | nil => intro _; rfl
  | cons x rest ih =>
    intro h
    show (checkSchedules u x.1 x.2).bind _ = _
    rw [h x (List.mem_cons_self x rest)]
    exact ih (fun y hy => h y (List.mem_cons_of_mem x hy))

/-- Calls of `checkSchedules()` during which the clock is unavailable or the
match condition of schedule `i` has the value its `triggered` flag already
has: none of them fails, calls `ringBell()` for schedule `i` or changes the
schedule. -/
theorem runTicks_quiet (i : Int) (e : Schedule) :
    ∀ (l : List (Option Tm × Nat)) (s : State),
      s.scheduleCount ≤ MAX_SCHEDULES → 0 ≤ i → i < s.scheduleCount →
      rd s.schedules i = some e →
      (∀ x ∈ l, ∀ t : Tm, x.1 = some t → e.due t = e.triggered) →
      ∃ s', runTicks s l = some s' ∧ s'.scheduleCount = s.scheduleCount ∧
        rd s'.schedules i = some e ∧ firedCount i s' = firedCount i s := by
  intro l
  induction l with
  | nil => intro s _ _ _ he _; exact ⟨s, rfl, rfl, he, rfl⟩
  | cons x rest ih =>
    intro s hc hi0 hi1 he hall
    have hrest : ∀ y ∈ rest, ∀ t : Tm, y.1 = some t → e.due t = e.triggered :=
      fun y hy => hall y (List.mem_cons_of_mem x hy)
    cases hx : x.1 with
    | none =>
      obtain ⟨s', hs', hcnt, he', hf⟩ := ih s hc hi0 hi1 he hrest
      refine ⟨s', ?_, hcnt, he', hf⟩
      show (checkSchedules s x.1 x.2).bind _ = _
      rw [hx]
      exact hs'
    | some t =>
      have hdue := hall x (List.mem_cons_self x rest) t hx
      obtain ⟨s1, hs1, hcnt1, he1, hf1, _⟩ := checkSchedules_tick s t x.2 i e hc hi0 hi1 he
      have he1' : rd s1.schedules i = some e := by rw [he1, hdue]
      have hf1' : firedCount i s1 = firedCount i s := by
        rw [hf1, if_neg (by rw [hdue]; cases e.triggered <;> simp)]
        rfl
      obtain ⟨s', hs', hcnt, he', hf⟩ :=
        ih s1 (by rw [hcnt1]; exact hc) hi0 (by rw [hcnt1]; exact hi1) he1' hrest
      refine ⟨s', ?_, by rw [hcnt, hcnt1], he', by rw [hf, hf1']⟩
      show (checkSchedules s x.1 x.2).bind _ = _
      rw [hx, hs1]
      exact hs'

/-- The first call of `checkSchedules()` in the minute of an enabled schedule
whose flag is clear, and every later call in that minute on any state that
holds the registry the first call left. -/
theorem checkSchedules_minute (s : State) (i : Int) (e : Schedule) (t : Tm) (millis : Nat)
    (hc : s.scheduleCount ≤ MAX_SCHEDULES) (hi0 : 0 ≤ i) (hi1 : i < s.scheduleCount)
    (he : rd s.schedules i = some e) (hen : e.enabled = true) (htr : e.triggered = false)
    (hsame : e.sameMinute t) :
    ∃ s1, checkSchedules s (some t) millis = some s1 ∧
      s1.scheduleCount = s.scheduleCount ∧
      rd s1.schedules i = some { e with triggered := true } ∧
      firedCount i s1 = firedCount i s + 1 ∧ s1.bellActive = true ∧
      (s.bellActive = false → s1.bell = (true, millis, true, true)) ∧
      ∀ u : State, u.schedules = s1.schedules → u.scheduleCount = s1.scheduleCount →
        ∀ (t' : Tm) (m' : Nat), e.sameMinute t' →
          checkSchedules u (some t') m' = some u ∧
          ∀ (level : Bool) (tCheck tRing tSet tOff : Nat),
            loop u (some t') level m' tCheck tRing tSet tOff =
              some (bellTiming (handleButton u level tCheck tRing tSet) tOff) ∧
            (bellTiming (handleButton u level tCheck tRing tSet) tOff).schedules =
              s1.schedules ∧
            (bellTiming (handleButton u level tCheck tRing tSet) tOff).scheduleCount =
              s1.scheduleCount := by
  have hdue : e.due t = true := (due_eq_true_iff e t).2 ⟨hen, hsame⟩
  obtain ⟨s1, hs1, hc1, he1, hf1, hb1, hbell, hset⟩ :=
    checkSchedules_tick s t millis i e hc hi0 hi1 he
  rw [hdue] at he1 hf1
  rw [if_pos ⟨rfl, htr⟩] at hf1
  have hact : s1.bellActive = true := hb1 hdue htr
  refine ⟨s1, hs1, hc1, he1, hf1, hact, ?_, ?_⟩
  · intro hidle
    rcases hbell with h | h
    · have h' : s1.bellActive = s.bellActive := congrArg Prod.fst h
      rw [hact, hidle] at h'
      cases h'
    · exact h
  · intro u hus huc t' m' ht'
    have htt : t' = t := sameMinute_unique e t' t ht' hsame
    subst htt
    have hid : checkSchedules u (some t') m' = some u :=
      checkSchedules_settled_id u t' m' (by rw [hus, huc]; exact hset)
    refine ⟨hid, fun level tCheck tRing tSet tOff => ⟨?_, ?_, ?_⟩⟩
    · unfold loop
      rw [hid]
      rfl
    · rw [(actuator_frame u level tCheck tRing tSet tOff).1, hus]
    · rw [(actuator_frame u level tCheck tRing tSet tOff).2, huc]

/-- C5: take a registry whose count fits the array, an index `i` below the
count, and the schedule there enabled with `triggered = false`; all calls
below have the clock available unless said otherwise.
* The first call of `checkSchedules()` at a time equal to the schedule's
  (day, hour, minute) calls `ringBell()` for schedule `i` once (one
  "Schedule i triggered" line; the bell is active afterwards, and started at
  that call's `millis()` if it was idle before).
* Every later call at such a time changes nothing at all: on any state that
  holds the registry the first call left, whatever has happened to the
  actuator in between (bell active or idle again), the call returns the state
  unchanged, so no `ringBell()` call takes effect and no line is printed; the
  same holds for a whole `loop()` iteration, whose result is that of its
  button and bell-timing part alone and holds the same registry again; in
  particular any run of such calls returns the state unchanged.
* One call at a different time followed by any number of calls with the clock
  unavailable or at different times does not call `ringBell()` for schedule
  `i` and leaves the schedule with its flag clear.
* The next call at a matching time calls `ringBell()` for schedule `i` once
  more, and every later call in that minute again changes nothing. -/
theorem checkSchedules_fires_once_per_minute (s : State) (i : Int) (e : Schedule)
    (first : Tm × Nat) (more : List (Tm × Nat))
    (gap1 : Tm × Nat) (gap : List (Option Tm × Nat))
    (again : Tm × Nat) (more2 : List (Tm × Nat))
    (hc : s.scheduleCount ≤ MAX_SCHEDULES) (hi0 : 0 ≤ i) (hi1 : i < s.scheduleCount)
    (he : rd s.schedules i = some e) (hen : e.enabled = true) (htr : e.triggered = false)
    (hfirst : e.sameMinute first.1) (hmore : ∀ x ∈ more, e.sameMinute x.1)
    (hgap1 : ¬ e.sameMinute gap1.1)
    (hgap : ∀ x ∈ gap, ∀ t : Tm, x.1 = some t → ¬ e.sameMinute t)
    (hagain : e.sameMinute again.1) (hmore2 : ∀ x ∈ more2, e.sameMinute x.1) :
    ∃ s1 s3 s4,
      checkSchedules s (some first.1) first.2 = some s1 ∧
      firedCount i s1 = firedCount i s + 1 ∧ s1.bellActive = true ∧
      (s.bellActive = false → s1.bell = (true, first.2, true, true)) ∧
      (∀ u : State, u.schedules = s1.schedules → u.scheduleCount = s1.scheduleCount →
        ∀ x ∈ more,
          checkSchedules u (some x.1) x.2 = some u ∧
          ∀ (level : Bool) (tCheck tRing tSet tOff : Nat),
            loop u (some x.1) level x.2 tCheck tRing tSet tOff =
              some (bellTiming (handleButton u level tCheck tRing tSet) tOff) ∧
            (bellTiming (handleButton u level tCheck tRing tSet) tOff).schedules =
              s1.schedules ∧
            (bellTiming (handleButton u level tCheck tRing tSet) tOff).scheduleCount =
              s1.scheduleCount) ∧
      runTicks s1 (more.map fun x => (some x.1, x.2)) = some s1 ∧
      runTicks s1 ((some gap1.1, gap1.2) :: gap) = some s3 ∧
      firedCount i s3 = firedCount i s + 1 ∧
      s3.scheduleCount = s.scheduleCount ∧ rd s3.schedules i = some e ∧
      checkSchedules s3 (some again.1) again.2 = some s4 ∧
      firedCount i s4 = firedCount i s + 2 ∧ s4.bellActive = true ∧
      (s3.bellActive = false → s4.bell = (true, again.2, true, true)) ∧
      (∀ u : State, u.schedules = s4.schedules → u.scheduleCount = s4.scheduleCount →
        ∀ x ∈ more2,
          checkSchedules u (some x.1) x.2 = some u ∧
          ∀ (level : Bool) (tCheck tRing tSet tOff : Nat),
            loop u (some x.1) level x.2 tCheck tRing tSet tOff =
              some (bellTiming (handleButton u level tCheck tRing tSet) tOff) ∧
            (bellTiming (handleButton u level tCheck tRing tSet) tOff).schedules =
              s4.schedules ∧
            (bellTiming (handleButton u level tCheck tRing tSet) tOff).scheduleCount =
              s4.scheduleCount) ∧
      runTicks s4 (more2.map fun x => (some x.1, x.2)) = some s4 := by
  have hndue : ∀ t : Tm, ¬ e.sameMinute t → e.due t = false := by
    intro t ht
    cases hd : e.due t with
    | false => rfl
    | true => exact absurd ((due_eq_true_iff e t).1 hd).2 ht
  have hrun : ∀ (u : State) (l : List (Tm × Nat)),
      (∀ x ∈ l, checkSchedules u (some x.1) x.2 = some u) →
      runTicks u (l.map fun x => (some x.1, x.2)) = some u := by
    intro u l hl
    apply runTicks_id
    intro x hx
    obtain ⟨y, hy, rfl⟩ := List.mem_map.1 hx
    exact hl y hy
  -- first matching call, and the later calls of that minute
  obtain ⟨s1, hs1, hc1, he1, hf1, hb1, hring1, hlater1⟩ :=
    checkSchedules_minute s i e first.1 first.2 hc hi0 hi1 he hen htr hfirst
  -- a call at another time clears the flag
  obtain ⟨g1, hg1, hcg, heg, hfg, _⟩ := checkSchedules_tick s1 gap1.1 gap1.2 i
    { e with triggered := true } (by rw [hc1]; exact hc) hi0 (by rw [hc1]; exact hi1) he1
  have hdg : ({ e with triggered := true } : Schedule).due gap1.1 = false := hndue _ hgap1
  rw [hdg] at heg hfg
  rw [if_neg (by simp)] at hfg
  have heg' : rd g1.schedules i = some e := by
    rw [heg]
    congr 1
    cases e
    simp only [Schedule.mk.injEq, true_and, and_true]
    exact htr.symm
  obtain ⟨s3, hs3, hc3, he3, hf3⟩ := runTicks_quiet i e gap g1
    (by rw [hcg, hc1]; exact hc) hi0 (by rw [hcg, hc1]; exact hi1) heg'
    (fun x hx t ht => by rw [hndue t (hgap x hx t ht), htr])
  have hcount3 : s3.scheduleCount = s.scheduleCount := by rw [hc3, hcg, hc1]
  -- the next matching call, and the later calls of that minute
  obtain ⟨s4, hs4, _, _, hf4, hb4, hring4, hlater4⟩ :=
    checkSchedules_minute s3 i e again.1 again.2 (by rw [hcount3]; exact hc) hi0
      (by rw [hcount3]; exact hi1) he3 hen htr hagain
  refine ⟨s1, s3, s4, hs1, hf1, hb1, hring1,
    fun u hus huc x hx => hlater1 u hus huc x.1 x.2 (hmore x hx),
    hrun s1 more (fun x hx => (hlater1 s1 rfl rfl x.1 x.2 (hmore x hx)).1),
    ?_, by rw [hf3, hfg, hf1], hcount3, he3, hs4, by rw [hf4, hf3, hfg, hf1], hb4, hring4,
    fun u hus huc x hx => hlater4 u hus huc x.1 x.2 (hmore2 x hx),
    hrun s4 more2 (fun x hx => (hlater4 s4 rfl rfl x.1 x.2 (hmore2 x hx)).1)⟩
  show (checkSchedules s1 (some gap1.1) gap1.2).bind _ = _
  rw [hg1]
  exact hs3

/-- Witness of C5: the Tuesday 09:00 schedule at index 1 of the sample
registry, polled twice at Tuesday 09:00, once at 09:01, once with the clock
unavailable, and twice at Tuesday 09:00 again. -/
theorem checkSchedules_fires_once_per_minute_witness :
    ∃ s1 s3 s4,
      checkSchedules State.sample (some ⟨2, 9, 0⟩) 100 = some s1 ∧
      firedCount 1 s1 = firedCount 1 State.sample + 1 ∧ s1.bellActive = true ∧
      (State.sample.bellActive = false → s1.bell = (true, 100, true, true)) ∧
      (∀ u : State, u.schedules = s1.schedules → u.scheduleCount = s1.scheduleCount →
        ∀ x ∈ [((⟨2, 9, 0⟩ : Tm), 200)],
          checkSchedules u (some x.1) x.2 = some u ∧
          ∀ (level : Bool) (tCheck tRing tSet tOff : Nat),
            loop u (some x.1) level x.2 tCheck tRing tSet tOff =
              some (bellTiming (handleButton u level tCheck tRing tSet) tOff) ∧
            (bellTiming (handleButton u level tCheck tRing tSet) tOff).schedules =
              s1.schedules ∧
            (bellTiming (handleButton u level tCheck tRing tSet) tOff).scheduleCount =
              s1.scheduleCount) ∧
      runTicks s1 ([((⟨2, 9, 0⟩ : Tm), 200)].map fun x => (some x.1, x.2)) = some s1 ∧
      runTicks s1 [(some ⟨2, 9, 1⟩, 60100), (none, 60200)] = some s3 ∧
      firedCount 1 s3 = firedCount 1 State.sample + 1 ∧
      s3.scheduleCount = State.sample.scheduleCount ∧
      rd s3.schedules 1 = some ⟨true, 2, 9, 0, false⟩ ∧
      checkSchedules s3 (some ⟨2, 9, 0⟩) 5000 = some s4 ∧
      firedCount 1 s4 = firedCount 1 State.sample + 2 ∧ s4.bellActive = true ∧
      (s3.bellActive = false → s4.bell = (true, 5000, true, true)) ∧
      (∀ u : State, u.schedules = s4.schedules → u.scheduleCount = s4.scheduleCount →
        ∀ x ∈ [((⟨2, 9, 0⟩ : Tm), 5100)],
          checkSchedules u (some x.1) x.2 = some u ∧
          ∀ (level : Bool) (tCheck tRing tSet tOff : Nat),
            loop u (some x.1) level x.2 tCheck tRing tSet tOff =
              some (bellTiming (handleButton u level tCheck tRing tSet) tOff) ∧
            (bellTiming (handleButton u level tCheck tRing tSet) tOff).schedules =
              s4.schedules ∧
            (bellTiming (handleButton u level tCheck tRing tSet) tOff).scheduleCount =
              s4.scheduleCount) ∧
      runTicks s4 ([((⟨2, 9, 0⟩ : Tm), 5100)].map fun x => (some x.1, x.2)) = some s4 :=
  checkSchedules_fires_once_per_minute State.sample 1 ⟨true, 2, 9, 0, false⟩
    (⟨2, 9, 0⟩, 100) [(⟨2, 9, 0⟩, 200)] (⟨2, 9, 1⟩, 60100) [(none, 60200)]
    (⟨2, 9, 0⟩, 5000) [(⟨2, 9, 0⟩, 5100)]
    (by decide) (by decide) (by decide) (by decide) rfl rfl
    ⟨rfl, rfl, rfl⟩
    (by intro x hx; rw [List.mem_singleton] at hx; subst hx; exact ⟨rfl, rfl, rfl⟩)
    (by intro h; exact absurd h.2.2 (by decide))
    (by intro x hx t ht; rw [List.mem_singleton] at hx; subst hx; cases ht)
    ⟨rfl, rfl, rfl⟩
    (by intro x hx; rw [List.mem_singleton] at hx; subst hx; exact ⟨rfl, rfl, rfl⟩)

end Bell
